import Mathlib

/-!
Verification development for the masked feature-extraction pipeline of
`image.py` / `preprocessing.py` (paired chest-radiograph images and
lung-segmentation masks turned into labeled feature rows).

The embedding is shallow:

* a grayscale pixel grid (a 2-D numpy array) is a `Mat := List (List ℤ)`;
* `ImageProcessor.__apply_mask` is embedded twice, once as the pure
  value-level function `applyMask` (the elementwise meaning of the numba
  loop) and once as the imperative loop itself, `apply_mask_run`, a fold
  of single-cell writes over the index set starting from `np.copy` of the
  image, threading all three arrays through the state so that frame
  properties of the loop are provable;
* Python `str.replace` (which replaces every non-overlapping occurrence,
  left to right) is `pyReplace`, structural recursion on a fuel bounded
  by the string length (each step consumes at least one character, so the
  fuel never runs out);
* the external feature algorithms (mahotas lbp / zernike / tas /
  haralick, pyradiomics) are opaque collaborators gathered in a
  `FeatureLibs` record; the concatenation and slicing logic of
  `Image.mahotas_characteristics`, `Image.haralick`,
  `ImageTuple.radiomics` and `ImageCharacteristics.__extract_from_image`
  is taken from the source;
* `ImageCharacteristics.save` is a fold over the two class lists that
  threads the written rows and the progress counter; a Python exception
  raised while a row's generator is consumed is an `Except.error`, which
  aborts the fold (the source has no `except` clause around the loop
  body, only a `try/finally` that closes the process pool).
-/

/-- A grayscale pixel grid: list of rows of integer intensities. -/
abbrev Mat : Type := List (List ℤ)

/-- Cell read `g[i, j]`, with 0 outside the grid (reads in the source are
always in bounds). -/
def Mat.get (g : Mat) (i j : Nat) : ℤ :=
  (List.getD g i []).getD j 0

/-- Number of rows, `shape[0]`. -/
def Mat.rows (g : Mat) : Nat := List.length g

/-- Number of columns, `shape[1]` of a rectangular array. -/
def Mat.cols (g : Mat) : Nat := (List.headD g []).length

/-- Value-level meaning of `ImageProcessor.__apply_mask`: start from a copy
of the image and zero every cell whose mask value is at most 20, i.e.
elementwise `if mask <= 20 then 0 else pixel`. -/
def applyMask (img_data mask_data : Mat) : Mat :=
  List.zipWith
    (fun irow mrow => List.zipWith (fun p m => if m ≤ 20 then 0 else p) irow mrow)
    img_data mask_data

/-- State of the `__apply_mask` loop: the two input arrays and the output
array `modified_img_data`, kept separate so that writes are visibly
directed at the copy only. -/
structure MaskState where
  img : Mat
  mask : Mat
  out : Mat

/-- Single-cell write `g[i][j] := v` (in bounds in the source). -/
def Mat.setCell (g : Mat) (i j : Nat) (v : ℤ) : Mat :=
  List.set g i ((List.getD g i []).set j v)

/-- One iteration of the loop body: `if mask_data[i, j] <= 20:
modified_img_data[i, j] = 0`. Only the `out` component is ever written. -/
def maskLoopStep (s : MaskState) (ij : Nat × Nat) : MaskState :=
  if Mat.get s.mask ij.1 ij.2 ≤ 20 then
    { s with out := Mat.setCell s.out ij.1 ij.2 0 }
  else s

/-- Row-major index sequence of the double `prange` loop over
`img_data.shape`. -/
def indexPairs (h w : Nat) : List (Nat × Nat) :=
  (List.range h).flatMap fun i => (List.range w).map fun j => (i, j)

/-- The `__apply_mask` loop itself: `modified_img_data = np.copy(img_data)`
followed by the double loop of conditional single-cell writes. -/
def apply_mask_run (img_data mask_data : Mat) : MaskState :=
  (indexPairs (Mat.rows img_data) (Mat.cols img_data)).foldl maskLoopStep
    ⟨img_data, mask_data, img_data⟩

/-! Equalize-then-mask ordering (`ImageProcessor.__process_image` /
`ImageProcessor.process`). CLAHE is an opaque image-to-image transform. -/

/-- An image/mask pair as held in `ImageProcessor.tuples` (pixel data only;
filename consistency is treated separately below). -/
structure ImgPair where
  image : Mat
  mask : Mat

/-- The body of `ImageProcessor.__process_image`: equalize the full image
with CLAHE, then apply the mask to the equalized pixels, and return the
image with the processed data. -/
def process_image (clahe : Mat → Mat) (t : ImgPair) : Mat :=
  applyMask (clahe t.image) t.mask

/-- The body of `ImageProcessor.process`: map `__process_image` over the
loaded tuples. -/
def ImageProcessor.process (clahe : Mat → Mat) (tuples : List ImgPair) : List Mat :=
  tuples.map (process_image clahe)

/-- A concrete contrast transform used to separate the two compositions:
add 5 to every pixel. -/
def claheShift : Mat → Mat := List.map (List.map (· + 5))

/-! Filename handling (`ImageTuple.from_image` / `ImageTuple.check_consistency`).
Python `str.replace(old, new)` replaces every non-overlapping occurrence,
scanning left to right. -/

/-- One scan of Python `str.replace` over a character list. The `Nat`
argument is fuel: every step consumes at least one character of the list,
so fuel equal to the list length is never exhausted; the fuel only makes
the recursion structural. -/
def replaceFuel (pat rep : List Char) : Nat → List Char → List Char
  | _, [] => []
  | 0, l => l
  | fuel + 1, c :: rest =>
    if pat ≠ [] ∧ (c :: rest).take pat.length = pat then
      rep ++ replaceFuel pat rep fuel ((c :: rest).drop pat.length)
    else
      c :: replaceFuel pat rep fuel rest

/-- Python `s.replace(pat, rep)`. -/
def pyReplace (s pat rep : String) : String :=
  ⟨replaceFuel pat.data rep.data s.data.length s.data⟩

/-- A filename as decomposed by `Image.get_filename` via
`os.path.splitext(os.path.basename(...))`: the stem and the extension. -/
structure PyFilename where
  stem : String
  ext : String

deriving DecidableEq

/-- The two `ValueError`s of `ImageTuple.check_consistency`, distinguished
by their messages; each carries the names it interpolates, in order. -/
inductive PairError
  | inconsistentPair (imgStem imgExt maskStem maskExt : String)
  | invalidMask (maskStem maskExt strippedStem imgExt : String)

deriving DecidableEq

deriving instance DecidableEq for Except

/-- The body of `ImageTuple.check_consistency`: first compare extensions;
then strip `"_processed"` from the image stem with `str.replace` and
require the mask stem to be the stripped stem followed by `"_mask"`. -/
def ImageTuple.check_consistency (image mask : PyFilename) : Except PairError Unit :=
  if image.ext ≠ mask.ext then
    .error (.inconsistentPair image.stem image.ext mask.stem mask.ext)
  else
    let stripped := pyReplace image.stem "_processed" ""
    if stripped ++ "_mask" ≠ mask.stem then
      .error (.invalidMask mask.stem mask.ext stripped image.ext)
    else
      .ok ()

/-- The mask-path computation of `ImageTuple.from_image`: build
`masks_dir_path + "/" + stem + "_mask" + ext` and then apply
`.replace("_processed", "")` to the whole path. -/
def ImageTuple.from_image_mask_path (masks_dir_path stem ext : String) : String :=
  pyReplace (masks_dir_path ++ "/" ++ (stem ++ "_mask" ++ ext)) "_processed" ""

/-- Modelled from the spec's words (section 4.1): remove only a trailing
`"_processed"` marker from a stem, used to compare the spec's stripping
rule with the source's `str.replace`. -/
def stripTrailingProcessed (s : String) : String :=
  let p : List Char := "_processed".data
  if p.length ≤ s.data.length ∧ s.data.drop (s.data.length - p.length) = p then
    ⟨s.data.take (s.data.length - p.length)⟩
  else
    s

/-! Feature extraction (`Image.haralick`, `Image.mahotas_characteristics`,
`ImageTuple.radiomics`, `ImageCharacteristics.__extract_from_image`). The
external feature algorithms are opaque numeric-vector producers. -/

/-- The external feature algorithms consumed by the pipeline: mahotas
`lbp(data, 8, 8)`, `zernike(data, 10, 10)`, `tas(data)`, the 4-direction
Haralick matrix `mt.features.haralick(data)` (one row per adjacency
direction), and the raw pyradiomics result values
`extractor.execute(image, mask)`. -/
structure FeatureLibs where
  lbp : Mat → List ℚ
  zernike : Mat → List ℚ
  tas : Mat → List ℚ
  haralickRaw : Mat → List (List ℚ)
  radiomicsRaw : Mat → Mat → List ℚ

/-- Arithmetic mean of a list of rationals. -/
def meanQ (l : List ℚ) : ℚ := l.sum / l.length

/-- The body of `Image.haralick`: `np.mean(mt.features.haralick(data),
axis=0)`, the per-column mean over the four adjacency directions. -/
def Image.haralick (L : FeatureLibs) (img : Mat) : List ℚ :=
  (List.transpose (L.haralickRaw img)).map meanQ

/-- The body of `Image.mahotas_characteristics`: LBP features, then
Zernike moments, then TAS features, concatenated in that order. -/
def Image.mahotas_characteristics (L : FeatureLibs) (img : Mat) : List ℚ :=
  L.lbp img ++ L.zernike img ++ L.tas img

/-- The body of `ImageTuple.radiomics`:
`list(extractor.execute(image, mask).values())[36:]`. -/
def ImageTuple.radiomics (L : FeatureLibs) (t : ImgPair) : List ℚ :=
  (L.radiomicsRaw t.image t.mask).drop 36

/-- The body of `ImageCharacteristics.__extract_from_image`: yield the
mahotas characteristics, then the radiomics values, then the label. -/
def extract_from_image (L : FeatureLibs) (t : ImgPair) (label : ℚ) : List ℚ :=
  Image.mahotas_characteristics L t.image ++ ImageTuple.radiomics L t ++ [label]

/-- Modelled from the spec's words (section 4.3 and claim C2): the claimed
row order is LBP, then the Haralick directional mean, then Zernike, then
TAS, then radiomics, then the label. -/
def specClaimedRow (L : FeatureLibs) (t : ImgPair) (label : ℚ) : List ℚ :=
  L.lbp t.image ++ Image.haralick L t.image ++ L.zernike t.image ++
    L.tas t.image ++ ImageTuple.radiomics L t ++ [label]

/-- Concrete one-value-per-component instantiation of the external feature
algorithms, used to separate the emitted row from the claimed row. -/
def constLibs : FeatureLibs where
  lbp := fun _ => [10]
  zernike := fun _ => [30]
  tas := fun _ => [40]
  haralickRaw := fun _ => [[1], [2], [3], [4]]
  radiomicsRaw := fun _ _ => List.replicate 36 99 ++ [50]

/-! The dataset assembly loop (`ImageCharacteristics.save`). The body
walks the normal images first, then the cov images; for each image it
computes the row and writes it immediately with `writer.writerow`, then
advances the progress bar. There is no `except` clause: an exception
raised while a row's generator is consumed propagates out of the loop
(the `try/finally` only guarantees that the pool is closed). -/

/-- State of the output file and the progress bars during `save`: the rows
written so far by the csv writer, and the completed `progress.update(1)`
calls. -/
structure SaveState where
  rows : List (List ℚ)
  progress : Nat

deriving DecidableEq

/-- Appending the class label to the feature values of one image, as
`__extract_from_image` yields the label last. The feature function stands
for the fallible consumption of the row generator: pair validation and
feature extraction happen while `writerow` drains it, and a raised
exception surfaces as `Except.error` before a label is ever emitted. -/
def extractWithLabel {α E : Type} (feats : α → Except E (List ℚ)) (label : ℚ)
    (a : α) : Except E (List ℚ) :=
  (feats a).map (fun fs => fs ++ [label])

/-- One class loop of `save`: write each successfully extracted row
immediately and advance progress by one; a raised exception aborts the
loop with the file in its current state. -/
def saveLoop {α E : Type} (ext : α → Except E (List ℚ)) :
    SaveState → List α → SaveState × Option E
  | s, [] => (s, none)
  | s, img :: rest =>
    match ext img with
    | .ok row => saveLoop ext ⟨s.rows ++ [row], s.progress + 1⟩ rest
    | .error e => (s, some e)

/-- The body of `ImageCharacteristics.save`: starting from an empty output
file, process the normal images with label 0, then — only if no exception
was raised — the cov images with label 1. -/
def ImageCharacteristics.save {α E : Type}
    (featsNormal featsCov : α → Except E (List ℚ))
    (normal_images cov_images : List α) : SaveState × Option E :=
  let r1 := saveLoop (extractWithLabel featsNormal 0) ⟨[], 0⟩ normal_images
  match r1.2 with
  | some e => (r1.1, some e)
  | none => saveLoop (extractWithLabel featsCov 1) r1.1 cov_images

/-- Per-image extraction used by the concrete save runs below: the second
image fails, the others succeed. -/
def featsBad : Nat → Except Unit (List ℚ) := fun n =>
  if n = 1 then .ok [10] else if n = 2 then .error () else .ok [30]

/-- Per-image extraction that returns the image itself as its feature
values and never fails. -/
def featsId : List ℚ → Except Unit (List ℚ) := fun a => .ok a

/-- Feature values used by the witness run with one failure: image 1 maps
to `[10]`, the rest to `[30]`. -/
def fBad : Nat → List ℚ := fun n => if n = 1 then [10] else [30]

/-! Worker-pool usage of `ImageCharacteristics.save`. The source sets
`num_workers = 24` and creates `mp.Pool(num_workers)` before the `try:`
block; the loop bodies call `__extract_from_image` and `writer.writerow`
directly in the main process and never submit anything to the pool; the
`finally:` block calls `pool.close()` and `pool.join()`. -/

/-- Pool-relevant events of one `save` run. -/
inductive PoolEv
  | poolCreate (workers : Nat)
  | taskDispatch
  | rowWrite
  | poolClose
  | poolJoin

deriving DecidableEq

/-- The hardcoded `num_workers = 24` of `ImageCharacteristics.save`. -/
def num_workers : Nat := 24

/-- Event trace of `ImageCharacteristics.save`: the pool of `num_workers`
processes is created first, each written row is a sequential write by the
main process, no task is ever submitted to the pool, and the `finally:`
block closes and joins the pool last whether or not the body raised. -/
def save_pool_trace {α E : Type} (featsN featsC : α → Except E (List ℚ))
    (normals covs : List α) : List PoolEv :=
  [PoolEv.poolCreate num_workers] ++
    List.replicate
      (ImageCharacteristics.save featsN featsC normals covs).1.rows.length
      PoolEv.rowWrite ++
    [PoolEv.poolClose, PoolEv.poolJoin]

/-! Lemmas and claim theorems. -/

lemma getD_zipWith_of_lt {α β γ : Type} (f : α → β → γ) (da : α) (db : β) (dc : γ) :
    ∀ (xs : List α) (ys : List β) (i : Nat), i < xs.length → i < ys.length →
      (List.zipWith f xs ys).getD i dc = f (xs.getD i da) (ys.getD i db) := by
  intro xs
  induction xs with
  | nil => intro ys i h _; exact absurd h (Nat.not_lt_zero i)
  | cons x xs ih =>
    intro ys i hx hy
    cases ys with
    | nil => exact absurd hy (Nat.not_lt_zero i)
    | cons y ys =>
      cases i with
      | zero => rfl
      | succ i =>
        simpa using ih ys i (Nat.lt_of_succ_lt_succ hx) (Nat.lt_of_succ_lt_succ hy)

lemma maskLoopStep_preserves (s : MaskState) (ij : Nat × Nat) :
    (maskLoopStep s ij).img = s.img ∧ (maskLoopStep s ij).mask = s.mask := by
  unfold maskLoopStep
  by_cases h : Mat.get s.mask ij.1 ij.2 ≤ 20 <;> simp [h]

lemma foldl_maskLoopStep_preserves (l : List (Nat × Nat)) :
    ∀ s : MaskState, (l.foldl maskLoopStep s).img = s.img ∧
      (l.foldl maskLoopStep s).mask = s.mask := by
  induction l with
  | nil => intro s; exact ⟨rfl, rfl⟩
  | cons ij rest ih =>
    intro s
    have hstep := maskLoopStep_preserves s ij
    have htail := ih (maskLoopStep s ij)
    exact ⟨htail.1.trans hstep.1, htail.2.trans hstep.2⟩

/-- C1: For every image and mask of identical dimensions, the mask
application returns a grid of the image's dimensions in which every pixel
is 0 where the mask is at most the threshold 20 and the unchanged input
pixel where the mask exceeds 20. -/
theorem apply_mask_pointwise (img mask : Mat)
    (hlen : Mat.rows img = Mat.rows mask)
    (hrow : ∀ i : Nat, i < Mat.rows img →
      (List.getD img i []).length = (List.getD mask i []).length)
    (i j : Nat) (hi : i < Mat.rows img) (hj : j < (List.getD img i []).length) :
    Mat.get (applyMask img mask) i j =
      (if Mat.get mask i j ≤ 20 then 0 else Mat.get img i j) ∧
    Mat.rows (applyMask img mask) = Mat.rows img := by
  unfold Mat.rows at hlen hi
  constructor
  · have hi' : i < List.length mask := hlen ▸ hi
    have hj' : j < (List.getD mask i []).length := hrow i hi ▸ hj
    unfold Mat.get applyMask
    rw [getD_zipWith_of_lt _ [] [] [] img mask i hi hi']
    rw [getD_zipWith_of_lt _ 0 0 0 _ _ j hj hj']
  · unfold Mat.rows applyMask
    rw [List.length_zipWith]
    omega

/-- Witness for C1 on a concrete 1×3 grid with mask values 19, 20, 21: the
hypotheses hold and the boundary behavior is as claimed. -/
theorem apply_mask_pointwise_witness :
    (Mat.rows ([[5, 6, 7]] : Mat) = Mat.rows ([[19, 20, 21]] : Mat)) ∧
    (Mat.get (applyMask [[5, 6, 7]] [[19, 20, 21]]) 0 1 =
      (if Mat.get ([[19, 20, 21]] : Mat) 0 1 ≤ 20 then 0
       else Mat.get ([[5, 6, 7]] : Mat) 0 1) ∧
     Mat.rows (applyMask [[5, 6, 7]] [[19, 20, 21]]) =
       Mat.rows ([[5, 6, 7]] : Mat)) :=
  ⟨by decide,
   apply_mask_pointwise [[5, 6, 7]] [[19, 20, 21]] (by decide)
     (by decide) 0 1 (by decide) (by decide)⟩

/-- C7: The `__apply_mask` loop never mutates either input array: after the
run both the image array and the mask array are element-for-element equal
to their pre-call values; every write of the loop is directed at the copy
`modified_img_data` held in the separate `out` component. -/
theorem apply_mask_no_mutation (img mask : Mat) :
    (apply_mask_run img mask).img = img ∧ (apply_mask_run img mask).mask = mask :=
  foldl_maskLoopStep_preserves _ ⟨img, mask, img⟩

/-- C6: Every processed result equals mask application after equalization
of the raw image, `applyMask (clahe img) mask`, for every tuple of the
batch; and the reverse composition (equalizing the already-masked image)
is a different function, witnessed by a concrete transform and input. -/
theorem process_equalize_before_mask :
    (∀ (clahe : Mat → Mat) (tuples : List ImgPair),
      ImageProcessor.process clahe tuples =
        tuples.map (fun t => applyMask (clahe t.image) t.mask)) ∧
    applyMask (claheShift [[7]]) [[0]] ≠ claheShift (applyMask [[7]] [[0]]) := by
  constructor
  · intro clahe tuples
    rfl
  · decide

lemma check_consistency_ok_iff (image mask : PyFilename) :
    ImageTuple.check_consistency image mask = .ok () ↔
      (image.ext = mask.ext ∧
       pyReplace image.stem "_processed" "" ++ "_mask" = mask.stem) := by
  unfold ImageTuple.check_consistency
  by_cases h1 : image.ext = mask.ext
  · by_cases h2 : pyReplace image.stem "_processed" "" ++ "_mask" = mask.stem
    · simp [h1, h2]
    · simp [h1, h2]
  · simp [h1]

lemma check_consistency_ext_ne (image mask : PyFilename)
    (h : image.ext ≠ mask.ext) :
    ImageTuple.check_consistency image mask =
      .error (.inconsistentPair image.stem image.ext mask.stem mask.ext) := by
  unfold ImageTuple.check_consistency
  simp [h]

lemma check_consistency_bad_stem (image mask : PyFilename)
    (h1 : image.ext = mask.ext)
    (h2 : pyReplace image.stem "_processed" "" ++ "_mask" ≠ mask.stem) :
    ImageTuple.check_consistency image mask =
      .error (.invalidMask mask.stem mask.ext
        (pyReplace image.stem "_processed" "") image.ext) := by
  unfold ImageTuple.check_consistency
  simp [h1, h2]

/-- C5, counterexample to the claim as stated: the code accepts the pair
whose image stem is `"scanA_processed_v2"` and whose mask stem is
`"scanA_v2_mask"`, although stripping only a trailing `"_processed"`
marker leaves the stem unchanged, so under the claim's acceptance
condition this pair would be rejected. -/
theorem check_consistency_trailing_only_false :
    ImageTuple.check_consistency ⟨"scanA_processed_v2", ".png"⟩
      ⟨"scanA_v2_mask", ".png"⟩ = .ok () ∧
    stripTrailingProcessed "scanA_processed_v2" ++ "_mask" ≠ "scanA_v2_mask" := by
  constructor
  · decide
  · decide

/-- C5, amended: a pair is accepted exactly when the extensions agree and
the mask stem is the image stem with every occurrence of `"_processed"`
removed, followed by `"_mask"`; the spec's two example pairs are accepted;
an extension mismatch produces the extension-mismatch error naming both
filenames; a stem mismatch with equal extensions produces the distinct
invalid-mask error. -/
theorem check_consistency_spec :
    (∀ image mask : PyFilename,
      ImageTuple.check_consistency image mask = .ok () ↔
        (image.ext = mask.ext ∧
         pyReplace image.stem "_processed" "" ++ "_mask" = mask.stem)) ∧
    ImageTuple.check_consistency ⟨"scanA", ".png"⟩ ⟨"scanA_mask", ".png"⟩ = .ok () ∧
    ImageTuple.check_consistency ⟨"scanA_processed", ".png"⟩
      ⟨"scanA_mask", ".png"⟩ = .ok () ∧
    (∀ image mask : PyFilename, image.ext ≠ mask.ext →
      ImageTuple.check_consistency image mask =
        .error (.inconsistentPair image.stem image.ext mask.stem mask.ext)) ∧
    (∀ image mask : PyFilename, image.ext = mask.ext →
      pyReplace image.stem "_processed" "" ++ "_mask" ≠ mask.stem →
      ImageTuple.check_consistency image mask =
        .error (.invalidMask mask.stem mask.ext
          (pyReplace image.stem "_processed" "") image.ext)) :=
  ⟨check_consistency_ok_iff, by decide, by decide,
   check_consistency_ext_ne, check_consistency_bad_stem⟩

/-- Witness for C5 at concrete pairs: an extension mismatch yields the
extension-mismatch error carrying both filenames, and a stem mismatch
with equal extensions yields the invalid-mask error. -/
theorem check_consistency_spec_witness :
    (((⟨"imgA", ".jpeg"⟩ : PyFilename).ext ≠ (⟨"imgA_mask", ".bmp"⟩ : PyFilename).ext) ∧
     ImageTuple.check_consistency ⟨"imgA", ".jpeg"⟩ ⟨"imgA_mask", ".bmp"⟩ =
       .error (.inconsistentPair "imgA" ".jpeg" "imgA_mask" ".bmp")) ∧
    (((⟨"imgA", ".png"⟩ : PyFilename).ext = (⟨"wrong_mask", ".png"⟩ : PyFilename).ext) ∧
     ImageTuple.check_consistency ⟨"imgA", ".png"⟩ ⟨"wrong_mask", ".png"⟩ =
       .error (.invalidMask "wrong_mask" ".png" "imgA" ".png")) :=
  ⟨⟨by decide, check_consistency_spec.2.2.2.1 ⟨"imgA", ".jpeg"⟩ ⟨"imgA_mask", ".bmp"⟩ (by decide)⟩,
   ⟨by decide, check_consistency_spec.2.2.2.2 ⟨"imgA", ".png"⟩ ⟨"wrong_mask", ".png"⟩
      (by decide) (by decide)⟩⟩

/-- C9: The `"_processed"` replacement is applied to every occurrence and
to whole strings: `from_image` rewrites the entire computed mask path, so
a masks directory whose name contains `"_processed"` is silently rewritten;
`check_consistency` strips every occurrence from the image stem, so a stem
with an interior (or repeated) marker is paired against the fully stripped
stem, and the unstripped mask name is rejected; in general a pair is
accepted exactly when the mask stem equals the image stem with every
occurrence removed, followed by `"_mask"`. -/
theorem replace_all_occurrences :
    ImageTuple.from_image_mask_path "data_processed/masks" "scanA" ".png" =
      "data/masks/scanA_mask.png" ∧
    ImageTuple.check_consistency ⟨"a_processed_b", ".png"⟩
      ⟨"a_b_mask", ".png"⟩ = .ok () ∧
    ImageTuple.check_consistency ⟨"a_processed_b", ".png"⟩
      ⟨"a_processed_b_mask", ".png"⟩ =
        .error (.invalidMask "a_processed_b_mask" ".png" "a_b" ".png") ∧
    pyReplace "x_processed_processed" "_processed" "" = "x" ∧
    (∀ image mask : PyFilename,
      ImageTuple.check_consistency image mask = .ok () ↔
        (image.ext = mask.ext ∧
         pyReplace image.stem "_processed" "" ++ "_mask" = mask.stem)) :=
  ⟨by decide, by decide, by decide, by decide, check_consistency_ok_iff⟩

/-- C10: Whenever the extensions of an image/mask pair differ the result is
the extension-mismatch error, whatever the stems are; and the invalid-mask
error only ever arises for pairs whose extensions already agree. -/
theorem ext_checked_before_stem :
    (∀ image mask : PyFilename, image.ext ≠ mask.ext →
      ImageTuple.check_consistency image mask =
        .error (.inconsistentPair image.stem image.ext mask.stem mask.ext)) ∧
    (∀ (image mask : PyFilename) (s1 s2 s3 s4 : String),
      ImageTuple.check_consistency image mask =
        .error (.invalidMask s1 s2 s3 s4) → image.ext = mask.ext) := by
  refine ⟨check_consistency_ext_ne, ?_⟩
  intro image mask s1 s2 s3 s4 h
  by_cases he : image.ext = mask.ext
  · exact he
  · rw [check_consistency_ext_ne image mask he] at h
    simp at h

/-- Witness for C10 at a pair whose filenames disagree in both extension
and stem: the result is the extension-mismatch error. -/
theorem ext_checked_before_stem_witness :
    (((⟨"scanA", ".jpg"⟩ : PyFilename).ext ≠ (⟨"scanB_mask", ".png"⟩ : PyFilename).ext) ∧
     ImageTuple.check_consistency ⟨"scanA", ".jpg"⟩ ⟨"scanB_mask", ".png"⟩ =
       .error (.inconsistentPair "scanA" ".jpg" "scanB_mask" ".png")) :=
  ⟨by decide,
   ext_checked_before_stem.1 ⟨"scanA", ".jpg"⟩ ⟨"scanB_mask", ".png"⟩ (by decide)⟩

/-- C2, counterexample to the claim as stated: with one-value components,
the emitted row is `[10, 30, 40, 50, label]` — LBP, Zernike, TAS,
radiomics, label — and differs from the claimed row, which also contains
the (nonempty) Haralick directional mean; the Haralick features are
computed by a method that the extraction path never calls. -/
theorem extract_row_no_haralick :
    extract_from_image constLibs ⟨[[0]], [[0]]⟩ 0 = [10, 30, 40, 50, 0] ∧
    (Image.haralick constLibs [[0]]).length = 1 ∧
    extract_from_image constLibs ⟨[[0]], [[0]]⟩ 0 ≠
      specClaimedRow constLibs ⟨[[0]], [[0]]⟩ 0 := by
  refine ⟨by decide, by decide, ?_⟩
  intro h
  have hlen := congrArg List.length h
  simp [extract_from_image, specClaimedRow, Image.mahotas_characteristics,
    Image.haralick, ImageTuple.radiomics, constLibs] at hlen
  exact absurd hlen (by decide)

/-- C2, amended: for every instantiation of the external feature
algorithms, the emitted row is the LBP descriptors, then the Zernike
moments, then the TAS statistics, then the radiomics values with their
first 36 entries dropped, followed only by the label scalar (the Haralick
directional mean is not part of the row); the label is the last entry. -/
theorem extract_row_order (L : FeatureLibs) (t : ImgPair) (label : ℚ) :
    extract_from_image L t label =
      L.lbp t.image ++ L.zernike t.image ++ L.tas t.image ++
        ImageTuple.radiomics L t ++ [label] ∧
    (extract_from_image L t label).getLast? = some label := by
  constructor
  · simp [extract_from_image, Image.mahotas_characteristics]
  · have h : extract_from_image L t label =
        (Image.mahotas_characteristics L t.image ++ ImageTuple.radiomics L t) ++
          [label] := by
      simp [extract_from_image]
    rw [h, List.getLast?_concat]

lemma saveLoop_ok {α E : Type} (ext : α → Except E (List ℚ)) (f : α → List ℚ) :
    ∀ (l : List α) (s : SaveState), (∀ a ∈ l, ext a = .ok (f a)) →
      saveLoop ext s l = (⟨s.rows ++ l.map f, s.progress + l.length⟩, none) := by
  intro l
  induction l with
  | nil => intro s _; simp [saveLoop]
  | cons a rest ih =>
    intro s h
    have ha : ext a = .ok (f a) := h a (by simp)
    have hrest : ∀ x ∈ rest, ext x = .ok (f x) := fun x hx => h x (by simp [hx])
    simp only [saveLoop, ha]
    rw [ih ⟨s.rows ++ [f a], s.progress + 1⟩ hrest]
    simp [List.append_assoc]
    omega

lemma saveLoop_rows_mono {α E : Type} (ext : α → Except E (List ℚ)) :
    ∀ (l : List α) (s : SaveState),
      ∃ new, (saveLoop ext s l).1.rows = s.rows ++ new := by
  intro l
  induction l with
  | nil => intro s; exact ⟨[], by simp [saveLoop]⟩
  | cons a rest ih =>
    intro s
    cases ha : ext a with
    | ok row =>
      obtain ⟨new, hnew⟩ := ih ⟨s.rows ++ [row], s.progress + 1⟩
      refine ⟨[row] ++ new, ?_⟩
      simp only [saveLoop, ha]
      rw [hnew]
      simp [List.append_assoc]
    | error e => exact ⟨[], by simp [saveLoop, ha]⟩

lemma saveLoop_cons_ok {α E : Type} (ext : α → Except E (List ℚ))
    (a : α) (r : List ℚ) (s : SaveState) (l : List α) (ha : ext a = .ok r) :
    saveLoop ext s (a :: l) = saveLoop ext ⟨s.rows ++ [r], s.progress + 1⟩ l := by
  simp [saveLoop, ha]

lemma saveLoop_cons_error {α E : Type} (ext : α → Except E (List ℚ))
    (a : α) (e : E) (s : SaveState) (l : List α) (ha : ext a = .error e) :
    saveLoop ext s (a :: l) = (s, some e) := by
  simp [saveLoop, ha]

lemma saveLoop_error_at {α E : Type} (ext : α → Except E (List ℚ))
    (f : α → List ℚ) (a : α) (e : E) (ha : ext a = .error e) :
    ∀ (xs : List α) (ys : List α) (s : SaveState),
      (∀ x ∈ xs, ext x = .ok (f x)) →
      saveLoop ext s (xs ++ a :: ys) =
        (⟨s.rows ++ xs.map f, s.progress + xs.length⟩, some e) := by
  intro xs
  induction xs with
  | nil =>
    intro ys s _
    rw [List.nil_append, saveLoop_cons_error ext a e s ys ha]
    simp
  | cons x rest ih =>
    intro ys s h
    have hx : ext x = .ok (f x) := h x (by simp)
    have hrest : ∀ y ∈ rest, ext y = .ok (f y) := fun y hy => h y (by simp [hy])
    rw [List.cons_append, saveLoop_cons_ok ext x (f x) s _ hx]
    rw [ih ys ⟨s.rows ++ [f x], s.progress + 1⟩ hrest]
    simp [List.append_assoc]
    omega

lemma extractWithLabel_ok {α E : Type} (feats : α → Except E (List ℚ))
    (f : α → List ℚ) (label : ℚ) (a : α) (h : feats a = .ok (f a)) :
    extractWithLabel feats label a = .ok (f a ++ [label]) := by
  simp [extractWithLabel, h, Except.map]

lemma extractWithLabel_error {α E : Type} (feats : α → Except E (List ℚ))
    (label : ℚ) (a : α) (e : E) (h : feats a = .error e) :
    extractWithLabel feats label a = .error e := by
  simp [extractWithLabel, h, Except.map]

/-- C3, counterexample to the claim as stated: with image 2 of the normal
batch failing, `save` stops at the failure — image 2 produces no row, but
image 3, although its extraction would succeed with `[30]`, produces no
row either, and the error propagates instead of the batch continuing. -/
theorem save_error_skips_false :
    ImageCharacteristics.save featsBad featsBad [1, 2, 3] [] =
      (⟨[[10, 0]], 1⟩, some ()) ∧
    featsBad 3 = .ok [30] ∧
    [30, 0] ∉ (ImageCharacteristics.save featsBad featsBad [1, 2, 3] []).1.rows :=
  ⟨by decide, by decide, by decide⟩

/-- C3, amended: a per-image error is not caught: the first failing image
aborts `save` with that error — the failing image produces no row and
advances no progress, no later image of either class is processed, and
every previously written row is preserved (the writes of `saveLoop` only
ever append to the file state). -/
theorem save_error_aborts {α E : Type} (featsN featsC : α → Except E (List ℚ))
    (f : α → List ℚ) (xs : List α) (a : α) (ys covs : List α) (e : E)
    (hx : ∀ x ∈ xs, featsN x = .ok (f x)) (ha : featsN a = .error e) :
    ImageCharacteristics.save featsN featsC (xs ++ a :: ys) covs =
      (⟨xs.map (fun x => f x ++ [0]), xs.length⟩, some e) ∧
    (∀ (F : Type) (ext : α → Except F (List ℚ)) (s : SaveState) (l : List α),
      ∃ new, (saveLoop ext s l).1.rows = s.rows ++ new) := by
  constructor
  · have hx' : ∀ x ∈ xs, extractWithLabel featsN 0 x = .ok (f x ++ [0]) :=
      fun x hmem => extractWithLabel_ok featsN f 0 x (hx x hmem)
    have ha' : extractWithLabel featsN 0 a = .error e :=
      extractWithLabel_error featsN 0 a e ha
    have hloop := saveLoop_error_at (extractWithLabel featsN 0)
      (fun x => f x ++ [0]) a e ha' xs ys ⟨[], 0⟩ hx'
    simp only [ImageCharacteristics.save, hloop]
    simp
  · exact fun F ext s l => saveLoop_rows_mono ext l s

/-- Witness for C3: a concrete batch whose second normal image fails; the
previously written row for image 1 is preserved and the error propagates. -/
theorem save_error_aborts_witness :
    (∀ x ∈ [1], featsBad x = .ok (fBad x)) ∧
    featsBad 2 = .error () ∧
    ImageCharacteristics.save featsBad featsBad ([1] ++ 2 :: [3]) [4] =
      (⟨[[10, 0]], 1⟩, some ()) := by
  refine ⟨by decide, by decide, ?_⟩
  rw [(save_error_aborts featsBad featsBad fBad [1] 2 [3] [4] ()
    (by decide) (by decide)).1]
  decide

/-- C4: When every image of both classes extracts successfully, `save`
writes exactly one row per image and no header: first the normal images in
listing order with trailing label 0, then the cov images in listing order
with trailing label 1; and the writes stream — after any prefix of the
normal batch the file holds exactly that prefix's rows. -/
theorem save_success {α E : Type} (featsN featsC : α → Except E (List ℚ))
    (fN fC : α → List ℚ) (normals covs : List α)
    (hN : ∀ a ∈ normals, featsN a = .ok (fN a))
    (hC : ∀ a ∈ covs, featsC a = .ok (fC a)) :
    ImageCharacteristics.save featsN featsC normals covs =
      (⟨normals.map (fun a => fN a ++ [0]) ++ covs.map (fun a => fC a ++ [1]),
        normals.length + covs.length⟩, none) ∧
    (ImageCharacteristics.save featsN featsC normals covs).1.rows.length =
      normals.length + covs.length ∧
    (∀ r ∈ (ImageCharacteristics.save featsN featsC normals covs).1.rows.take
        normals.length, r.getLast? = some 0) ∧
    (∀ r ∈ (ImageCharacteristics.save featsN featsC normals covs).1.rows.drop
        normals.length, r.getLast? = some 1) ∧
    (∀ xs ys, normals = xs ++ ys →
      saveLoop (extractWithLabel featsN 0) ⟨[], 0⟩ xs =
        (⟨xs.map (fun a => fN a ++ [0]), xs.length⟩, none)) := by
  have hN' : ∀ a ∈ normals, extractWithLabel featsN 0 a = .ok (fN a ++ [0]) :=
    fun a hmem => extractWithLabel_ok featsN fN 0 a (hN a hmem)
  have hC' : ∀ a ∈ covs, extractWithLabel featsC 1 a = .ok (fC a ++ [1]) :=
    fun a hmem => extractWithLabel_ok featsC fC 1 a (hC a hmem)
  have hloopN := saveLoop_ok (extractWithLabel featsN 0)
    (fun a => fN a ++ [0]) normals ⟨[], 0⟩ hN'
  have hmain : ImageCharacteristics.save featsN featsC normals covs =
      (⟨normals.map (fun a => fN a ++ [0]) ++ covs.map (fun a => fC a ++ [1]),
        normals.length + covs.length⟩, none) := by
    have hloopC := saveLoop_ok (extractWithLabel featsC 1)
      (fun a => fC a ++ [1]) covs
      ⟨[] ++ normals.map (fun a => fN a ++ [0]), 0 + normals.length⟩ hC'
    simp only [ImageCharacteristics.save, hloopN, hloopC]
    simp
  refine ⟨hmain, ?_, ?_, ?_, ?_⟩
  · rw [hmain]
    simp
  · intro r hr
    rw [hmain] at hr
    simp only at hr
    rw [← List.length_map normals (fun a => fN a ++ [0]), List.take_left] at hr
    obtain ⟨a, _, rfl⟩ := List.mem_map.mp hr
    exact List.getLast?_concat _
  · intro r hr
    rw [hmain] at hr
    simp only at hr
    rw [← List.length_map normals (fun a => fN a ++ [0]), List.drop_left] at hr
    obtain ⟨a, _, rfl⟩ := List.mem_map.mp hr
    exact List.getLast?_concat _
  · intro xs ys hsplit
    have hxs : ∀ a ∈ xs, extractWithLabel featsN 0 a = .ok (fN a ++ [0]) :=
      fun a hmem => hN' a (by rw [hsplit]; exact List.mem_append_left ys hmem)
    have := saveLoop_ok (extractWithLabel featsN 0)
      (fun a => fN a ++ [0]) xs ⟨[], 0⟩ hxs
    simpa using this

/-- Witness for C4: three normal and two cov images, all successful, give
five rows, the first three ending in 0 and the last two ending in 1, in
listing order. -/
theorem save_success_witness :
    (∀ a ∈ ([[1], [2], [3]] : List (List ℚ)), featsId a = .ok (id a)) ∧
    (∀ a ∈ ([[4], [5]] : List (List ℚ)), featsId a = .ok (id a)) ∧
    ImageCharacteristics.save featsId featsId [[1], [2], [3]] [[4], [5]] =
      (⟨[[1, 0], [2, 0], [3, 0], [4, 1], [5, 1]], 5⟩, none) := by
  refine ⟨by decide, by decide, ?_⟩
  rw [(save_success featsId featsId id id [[1], [2], [3]] [[4], [5]]
    (by decide) (by decide)).1]
  decide

lemma getLast?_append_pair {β : Type} (l : List β) (x y : β) :
    (l ++ [x, y]).getLast? = some y := by
  have h : l ++ [x, y] = (l ++ [x]) ++ [y] := by simp
  rw [h, List.getLast?_concat]

/-- C8: In every run of `save`, no task is ever dispatched to the worker
pool — feature extraction happens sequentially in the main process — and
the pool that is created has the fixed size 24 rather than the available
CPU core count; the close/join of the pool is the last event of the run
even when extraction fails. -/
theorem save_pool_never_dispatched {α E : Type}
    (featsN featsC : α → Except E (List ℚ)) (normals covs : List α) :
    PoolEv.taskDispatch ∉ save_pool_trace featsN featsC normals covs ∧
    PoolEv.poolCreate 24 ∈ save_pool_trace featsN featsC normals covs ∧
    num_workers = 24 ∧
    (save_pool_trace featsN featsC normals covs).getLast? =
      some PoolEv.poolJoin := by
  refine ⟨?_, ?_, rfl, ?_⟩
  · intro hmem
    simp only [save_pool_trace, List.mem_append, List.mem_replicate,
      List.mem_singleton, List.mem_cons] at hmem
    rcases hmem with (h | h) | h
    · exact absurd h (by simp)
    · exact absurd h.2 (by simp)
    · rcases h with h | h
      · exact absurd h (by simp)
      · simp at h
  · simp [save_pool_trace, num_workers]
  · have h : save_pool_trace featsN featsC normals covs =
        ([PoolEv.poolCreate num_workers] ++
          List.replicate
            (ImageCharacteristics.save featsN featsC normals covs).1.rows.length
            PoolEv.rowWrite) ++ [PoolEv.poolClose, PoolEv.poolJoin] := by
      simp [save_pool_trace]
    rw [h, getLast?_append_pair]
